import Mathlib

/-!
Verification of `src/tools.py` (silanthro/hackernews): a shallow embedding
of `get_stories`, `get_top_stories`, `get_new_stories` and
`search_new_stories_by_title`, together with theorems settling the frozen
claims about ordering, shaping, error propagation and fuzzy ranking.

The network layer (`grequests`) is modelled as an oracle (`Env`) giving the
response each request would obtain, plus an explicit completion schedule for
the concurrent jobs, so that independence from completion order is provable
rather than assumed.
-/

/-- Base URL of the upstream HackerNews API (`BASE_URL` in src/tools.py). -/
def BASE_URL : String := "https://hacker-news.firebaseio.com/v0"

deriving instance DecidableEq for Except

/-- Listing category: the key passed to `get_stories` (the string
"topstories" or "newstories" in src/tools.py). -/
inductive Key where
  | topstories
  | newstories
deriving DecidableEq

/-- Raw decoded JSON item payload, as read by `get_stories` via `p.get(...)`:
every field is optional because `dict.get` returns `None` for a missing key.
The upstream API stores the creation time under the key `time`, while the
code reads a key named `timestamp`; both keys are modelled so the mismatch
can be stated. The Python dict key `by` is modelled as the field `by_`
(`by` is a Lean keyword). -/
structure RawItem where
  id : Option Int
  title : Option String
  url : Option String
  by_ : Option String
  score : Option Int
  time : Option Int
  timestamp : Option Int
deriving DecidableEq

/-- Shaped story record (the `Post` TypedDict of src/tools.py). Fields hold
the values the code actually stores: `p.get` may return `None`, so every
copied field is optional; `comments_url` is always a string. -/
structure Post where
  title : Option String
  url : Option String
  comments_url : String
  by_ : Option String
  score : Option Int
  timestamp : Option Int
deriving DecidableEq

/-- One HTTP response object: calling `.json()` on it either decodes a value
or raises a decode error, modelled as `Except`. -/
structure HNResponse (α : Type) where
  json : Except String α
deriving DecidableEq

/-- Network oracle: the response `grequests` would obtain for the listing
request of each key and for the item request of each id. `none` models a
failed request: `grequests` leaves `request.response` as `None` in that case
and `grequests.map` yields `None` in the corresponding slot. -/
structure Env where
  listing : Key → Option (HNResponse (List Int))
  item : Int → Option (HNResponse RawItem)

/-- Python f-string interpolation of an optional integer, as in
`f"...id={p.get('id')}"`: `None` prints as the text `None`. -/
def pyStr : Option Int → String
  | none => "None"
  | some n => toString n

/-- Python slice `l[:n]`: for nonnegative `n` the first `n` elements (all of
them when `n` exceeds the length); for negative `n` all but the last `|n|`
elements (empty when `|n|` is at least the length). -/
def pyTake (n : Int) (l : List α) : List α :=
  if 0 ≤ n then l.take n.toNat else l.take (l.length - n.natAbs)

/-- Record shaper: the comprehension at src/tools.py lines 42-52, reading
each field with `p.get` and deriving `comments_url` from the payload's own
`id` field. Note the code reads the key `timestamp`, not `time`. -/
def shapePost (p : RawItem) : Post :=
  { title := p.title
    url := p.url
    comments_url := "https://news.ycombinator.com/item?id=" ++ pyStr p.id
    by_ := p.by_
    score := p.score
    timestamp := p.timestamp }

/-- Slot state of the concurrent jobs spawned by `grequests.map`: jobs
complete in the order given by `schedule` (indices into `reqs`, any order,
duplicates harmless), and each completing job writes only its own slot. -/
def runJobs (send : ι → Option ρ) (reqs : List ι) (schedule : List Nat) : Nat → Option (Option ρ) :=
  schedule.foldl (fun slots i => Function.update slots i ((reqs[i]?).map send)) (fun _ => none)

/-- Model of `grequests.map`: after the jobs run (in schedule order), the
result list is read back in the order of the original request list, one slot
per request, exactly as `map` returns `[request.response for request in
requests]`. A slot whose job never ran reads as `none`, like a request whose
`response` attribute stayed `None`. -/
def grequestsMap (send : ι → Option ρ) (reqs : List ι) (schedule : List Nat) : List (Option ρ) :=
  (List.range reqs.length).map (fun i => (runJobs send reqs schedule i).join)

/-- A completion schedule under which every one of the `n` request jobs
completes (in any order; duplicates allowed). -/
abbrev validSched (schedule : List Nat) (n : Nat) : Prop :=
  ∀ i ∈ List.range n, i ∈ schedule

/-- Reading `.json()` from an entry of a `grequests.map` result: on `None`
(failed request) Python raises `AttributeError`; otherwise the body is
decoded, which can itself fail. -/
def respJson : Option (HNResponse α) → Except String α
  | none => Except.error "AttributeError"
  | some r => r.json

/-- Left-to-right effectful map: a Python list comprehension whose body can
raise aborts at the first raise, returning a single error. -/
def exceptMapM (f : α → Except ε β) : List α → Except ε (List β)
  | [] => Except.ok []
  | x :: xs =>
    match f x with
    | Except.error e => Except.error e
    | Except.ok y =>
      match exceptMapM f xs with
      | Except.error e => Except.error e
      | Except.ok ys => Except.ok (y :: ys)

/-- Embedding of `get_stories` (src/tools.py lines 18-52). `s1` and `s2` are
the completion schedules of the two `grequests.map` calls (the single listing
request, then one detail request per sliced id); everything else follows the
source line by line: decode the listing, slice with `data[:num]`, fetch the
items concurrently, decode each response, shape each payload. -/
def get_stories (env : Env) (s1 s2 : List Nat) (num : Int) (key : Key) : Except String (List Post) :=
  match respJson (((grequestsMap env.listing [key] s1)[0]?).join) with
  | Except.error e => Except.error e
  | Except.ok data =>
    match exceptMapM respJson (grequestsMap env.item (pyTake num data) s2) with
    | Except.error e => Except.error e
    | Except.ok posts => Except.ok (posts.map shapePost)

/-- Embedding of `get_top_stories` (src/tools.py lines 55-71). -/
def get_top_stories (env : Env) (s1 s2 : List Nat) (num : Int) : Except String (List Post) :=
  get_stories env s1 s2 num Key.topstories

/-- Embedding of `get_new_stories` (src/tools.py lines 74-90). -/
def get_new_stories (env : Env) (s1 s2 : List Nat) (num : Int) : Except String (List Post) :=
  get_stories env s1 s2 num Key.newstories

/-- Character normalization of the fuzzy matcher: a non-alphanumeric
character becomes a space, letters are lowercased. -/
def normChar (c : Char) : Char :=
  if c.isAlphanum then c.toLower else ' '

/-- Removal of leading and trailing spaces from a character list. -/
def trimSpaces (l : List Char) : List Char :=
  ((l.dropWhile (fun c => c == ' ')).reverse.dropWhile (fun c => c == ' ')).reverse

/-- Default string processing of the fuzzy matcher (thefuzz `full_process` /
rapidfuzz `default_process`): every non-alphanumeric character becomes a
space, letters are lowercased, and the ends are trimmed. -/
def fullProcess (s : String) : String :=
  String.mk (trimSpaces (s.toList.map normChar))

/-- Accumulating splitter behind `splitTokens`: walks the characters,
gathering the current token in `acc` (reversed). -/
def tokensAux : List Char → List Char → List String
  | [], acc => if acc.isEmpty then [] else [String.mk acc.reverse]
  | c :: cs, acc =>
    if c == ' ' then
      if acc.isEmpty then tokensAux cs [] else String.mk acc.reverse :: tokensAux cs []
    else tokensAux cs (c :: acc)

/-- Python `str.split()` on a processed string: space-separated tokens with
empties dropped. -/
def splitTokens (s : String) : List String :=
  tokensAux s.toList []

/-- Token-set similarity as called at src/tools.py line 112,
`fuzz.token_set_ratio(query, x["title"])`. Modelled from the thefuzz and
rapidfuzz library sources: a `None` argument scores 0 before any processing
(thefuzz `_rapidfuzz_scorer`); after processing, an empty token set on either
side scores 0 (rapidfuzz early exit); the remaining floating-point similarity
computation on the two processed strings is abstracted as the parameter `f`,
since no claim depends on its concrete values. -/
def tokenSetScore (f : String → String → Nat) (query : String) (title : Option String) : Nat :=
  match title with
  | none => 0
  | some t =>
    let s1 := fullProcess query
    let s2 := fullProcess t
    if splitTokens s1 = [] ∨ splitTokens s2 = [] then 0 else f s1 s2

/-- Stable insertion of `x` into a list: `x` goes after every element whose
sort key does not exceed its own. This is the single step of the model of
Python `list.sort`. -/
def insertKey (k : α → Int) (x : α) : List α → List α
  | [] => [x]
  | y :: ys => if k y ≤ k x then y :: insertKey k x ys else x :: y :: ys

/-- Model of Python `list.sort(key=k)`: a stable sort, ascending in `k`.
Elements are inserted left to right, each after all previously placed
elements of equal key, which is exactly the stability contract of
`list.sort`. -/
def pySortKey (k : α → Int) (l : List α) : List α :=
  l.foldl (fun acc x => insertKey k x acc) []

/-- Embedding of `search_new_stories_by_title` (src/tools.py lines 93-113):
fetch the 100 newest stories, sort them in place by the key
`-fuzz.token_set_ratio(query, title)` (Python sorts ascending, so this is
descending similarity), and return the slice `posts[:num]`. -/
def search_new_stories_by_title (env : Env) (s1 s2 : List Nat) (f : String → String → Nat) (query : String) (num : Int) : Except String (List Post) :=
  match get_new_stories env s1 s2 100 with
  | Except.error e => Except.error e
  | Except.ok posts =>
    Except.ok (pyTake num (pySortKey (fun x => -(tokenSetScore f query x.title : Int)) posts))

/-- Concrete item payload used by the evaluation witnesses. -/
def testRaw (pid : Int) : RawItem :=
  { id := some pid, title := some "T", url := none, by_ := some "alice"
    score := some 5, time := some 100, timestamp := none }

/-- Concrete network oracle where every request succeeds. -/
def testEnv : Env :=
  { listing := fun _ => some { json := Except.ok [11, 22, 33] }
    item := fun pid => some { json := Except.ok (testRaw pid) } }

/-- Concrete network oracle where the detail request for id 2 fails at the
transport level. -/
def failEnv : Env :=
  { listing := fun _ => some { json := Except.ok [1, 2] }
    item := fun pid => if pid = 2 then none else some { json := Except.ok (testRaw pid) } }

/-- Payload with the real upstream shape: the creation time sits under the
key `time` and there is no `timestamp` key. -/
def bugItem : RawItem :=
  { id := some 1, title := some "A", url := none, by_ := some "alice"
    score := some 10, time := some 1700000000, timestamp := none }

/-- Unfolding of the slot state after a list of completions: an index that
ever completed holds its own response, any other slot is unchanged. -/
theorem runJobs_foldl_apply (send : ι → Option ρ) (reqs : List ι) (sched : List Nat)
    (slots : Nat → Option (Option ρ)) (i : Nat) :
    sched.foldl (fun sl j => Function.update sl j ((reqs[j]?).map send)) slots i
      = if i ∈ sched then (reqs[i]?).map send else slots i := by
  induction sched generalizing slots with
  | nil => simp
  | cons j s ih =>
    simp only [List.foldl_cons, ih, List.mem_cons]
    by_cases hs : i ∈ s
    · simp [hs]
    · by_cases hij : i = j
      · subst hij
        simp [hs, Function.update_apply]
      · simp [hs, hij, Function.update_apply]

/-- Final slot content: the response of request `i` when job `i` completed,
`none` otherwise. -/
theorem runJobs_apply (send : ι → Option ρ) (reqs : List ι) (sched : List Nat) (i : Nat) :
    runJobs send reqs sched i = if i ∈ sched then (reqs[i]?).map send else none :=
  runJobs_foldl_apply send reqs sched (fun _ => none) i

/-- Order realignment of the concurrent fetcher: under any schedule in which
every job completes, `grequestsMap` returns exactly the responses of the
input requests, in input order, whatever the completion order was. -/
theorem grequestsMap_eq_map (send : ι → Option ρ) (reqs : List ι) (sched : List Nat)
    (h : validSched sched reqs.length) :
    grequestsMap send reqs sched = reqs.map send := by
  apply List.ext_getElem
  · simp [grequestsMap]
  · intro i h1 h2
    have hi : i < reqs.length := by simpa [grequestsMap] using h1
    have hmem : i ∈ sched := h i (List.mem_range.mpr hi)
    simp [grequestsMap, runJobs_apply, hmem, List.getElem?_eq_getElem hi]

/-- Mapping under an effectful map composes. -/
theorem exceptMapM_map (f : β → Except ε γ) (g : α → β) (l : List α) :
    exceptMapM f (l.map g) = exceptMapM (fun x => f (g x)) l := by
  induction l with
  | nil => rfl
  | cons x xs ih => simp [exceptMapM, ih]

/-- An effectful map whose body succeeds everywhere is a plain map. -/
theorem exceptMapM_ok (f : α → Except ε β) (g : α → β) (l : List α)
    (h : ∀ x ∈ l, f x = Except.ok (g x)) :
    exceptMapM f l = Except.ok (l.map g) := by
  induction l with
  | nil => rfl
  | cons x xs ih =>
    have hx := h x (by simp)
    have ihh := ih (fun y hy => h y (by simp [hy]))
    simp [exceptMapM, hx, ihh]

/-- An effectful map over a list containing a failing element fails as a
whole with a single error. -/
theorem exceptMapM_error (f : α → Except ε β) (l : List α)
    (h : ∃ x ∈ l, ∃ e, f x = Except.error e) :
    ∃ e, exceptMapM f l = Except.error e := by
  induction l with
  | nil =>
    rcases h with ⟨x, hx, _⟩
    cases hx
  | cons x xs ih =>
    rcases h with ⟨y, hy, e, he⟩
    rcases List.mem_cons.mp hy with rfl | hmem
    · exact ⟨e, by simp [exceptMapM, he]⟩
    · cases hfx : f x with
      | error e2 => exact ⟨e2, by simp [exceptMapM, hfx]⟩
      | ok v =>
        rcases ih ⟨y, hmem, e, he⟩ with ⟨e3, h3⟩
        exact ⟨e3, by simp [exceptMapM, hfx, h3]⟩

/-- Happy-path characterization of `get_stories`: when the listing request
succeeds with `ids` and the detail request of every sliced id succeeds with
payload `raw pid`, the call returns the shaped payloads of the sliced ids in
input order, for any completion schedules under which all jobs finish. -/
theorem get_stories_spec (env : Env) (s1 s2 : List Nat) (num : Int) (key : Key)
    (ids : List Int) (raw : Int → RawItem)
    (h1 : validSched s1 1) (hl : env.listing key = some { json := Except.ok ids })
    (h2 : validSched s2 (pyTake num ids).length)
    (hi : ∀ pid ∈ pyTake num ids, env.item pid = some { json := Except.ok (raw pid) }) :
    get_stories env s1 s2 num key
      = Except.ok ((pyTake num ids).map (fun pid => shapePost (raw pid))) := by
  have hresp : grequestsMap env.listing [key] s1 = [env.listing key] := by
    simpa using grequestsMap_eq_map env.listing [key] s1 (by simpa using h1)
  have hstep : respJson (((grequestsMap env.listing [key] s1)[0]?).join) = Except.ok ids := by
    rw [hresp]
    rw [show ((([env.listing key] : List (Option (HNResponse (List Int))))[0]?).join)
        = env.listing key from rfl, hl]
    rfl
  have hitems : grequestsMap env.item (pyTake num ids) s2 = (pyTake num ids).map env.item :=
    grequestsMap_eq_map env.item (pyTake num ids) s2 h2
  have hdec : exceptMapM respJson ((pyTake num ids).map env.item)
      = Except.ok ((pyTake num ids).map raw) := by
    rw [exceptMapM_map]
    exact exceptMapM_ok (fun pid => respJson (env.item pid)) raw (pyTake num ids)
      (fun pid hp => by
        show respJson (env.item pid) = Except.ok (raw pid)
        rw [hi pid hp]
        rfl)
  unfold get_stories
  rw [hstep]
  dsimp only
  rw [hitems, hdec]
  dsimp only
  rw [List.map_map]
  rfl

/-- Stable insertion only adds the new element. -/
theorem insertKey_perm (k : α → Int) (x : α) (l : List α) :
    List.Perm (insertKey k x l) (x :: l) := by
  induction l with
  | nil => exact List.Perm.refl _
  | cons y ys ih =>
    by_cases h : k y ≤ k x
    · simp only [insertKey, if_pos h]
      exact (ih.cons y).trans (List.Perm.swap x y ys)
    · simp only [insertKey, if_neg h]
      exact List.Perm.refl _

/-- Stable insertion preserves ascending key order. -/
theorem insertKey_sorted (k : α → Int) (x : α) (l : List α)
    (h : List.Pairwise (fun a b => k a ≤ k b) l) :
    List.Pairwise (fun a b => k a ≤ k b) (insertKey k x l) := by
  induction l with
  | nil => simp [insertKey]
  | cons y ys ih =>
    rcases List.pairwise_cons.mp h with ⟨hy, hys⟩
    by_cases hle : k y ≤ k x
    · simp only [insertKey, if_pos hle]
      refine List.pairwise_cons.mpr ⟨?_, ih hys⟩
      intro b hb
      have hb2 : b = x ∨ b ∈ ys := by
        simpa using (insertKey_perm k x ys).mem_iff.mp hb
      rcases hb2 with rfl | hbys
      · exact hle
      · exact hy b hbys
    · simp only [insertKey, if_neg hle]
      refine List.pairwise_cons.mpr ⟨?_, h⟩
      intro b hb
      rcases List.mem_cons.mp hb with rfl | hbys
      · exact le_of_lt (not_le.mp hle)
      · exact le_trans (le_of_lt (not_le.mp hle)) (hy b hbys)

/-- Inserting an element whose key misses `v` does not disturb the `v`-keyed
subsequence. -/
theorem insertKey_filter_ne (k : α → Int) (x : α) (v : Int) (l : List α) (hx : k x ≠ v) :
    (insertKey k x l).filter (fun a => decide (k a = v))
      = l.filter (fun a => decide (k a = v)) := by
  induction l with
  | nil => simp [insertKey, hx]
  | cons y ys ih =>
    by_cases hle : k y ≤ k x
    · simp only [insertKey, if_pos hle]
      simp [List.filter_cons, ih]
    · simp only [insertKey, if_neg hle]
      simp [List.filter_cons, hx]

/-- Inserting an element whose key equals `v` into a sorted list appends it
behind every previous element of key `v`: the stability of the insertion. -/
theorem insertKey_filter_eq (k : α → Int) (x : α) (v : Int) (l : List α)
    (hs : List.Pairwise (fun a b => k a ≤ k b) l) (hx : k x = v) :
    (insertKey k x l).filter (fun a => decide (k a = v))
      = l.filter (fun a => decide (k a = v)) ++ [x] := by
  induction l with
  | nil => simp [insertKey, hx]
  | cons y ys ih =>
    rcases List.pairwise_cons.mp hs with ⟨hy, hys⟩
    by_cases hle : k y ≤ k x
    · simp only [insertKey, if_pos hle]
      rw [List.filter_cons, List.filter_cons, ih hys]
      split <;> simp
    · simp only [insertKey, if_neg hle]
      have hvy : v < k y := hx ▸ not_le.mp hle
      have hnil : (y :: ys).filter (fun a => decide (k a = v)) = [] := by
        rw [List.filter_eq_nil_iff]
        intro a ha
        have hva : v < k a := by
          rcases List.mem_cons.mp ha with rfl | hmem
          · exact hvy
          · exact lt_of_lt_of_le hvy (hy a hmem)
        simp [ne_of_gt hva]
      simp [List.filter_cons, hx, hnil]

/-- Folding stable insertions over a list, starting from a sorted
accumulator: the result stays sorted. -/
theorem sortFold_sorted (k : α → Int) :
    ∀ (l acc : List α), List.Pairwise (fun a b => k a ≤ k b) acc →
      List.Pairwise (fun a b => k a ≤ k b) (l.foldl (fun acc x => insertKey k x acc) acc)
  | [], _, h => h
  | x :: xs, acc, h =>
    sortFold_sorted k xs (insertKey k x acc) (insertKey_sorted k x acc h)

/-- Folding stable insertions is a permutation of accumulator and input. -/
theorem sortFold_perm (k : α → Int) :
    ∀ (l acc : List α),
      List.Perm (l.foldl (fun acc x => insertKey k x acc) acc) (acc ++ l) := by
  intro l
  induction l with
  | nil => intro a; simp
  | cons x xs ih =>
    intro acc
    simp only [List.foldl_cons]
    have h1 := ih (insertKey k x acc)
    have h2 : List.Perm ((insertKey k x acc) ++ xs) ((x :: acc) ++ xs) :=
      (insertKey_perm k x acc).append_right xs
    have h3 : List.Perm ((x :: acc) ++ xs) (acc ++ x :: xs) := by
      simpa using List.perm_middle.symm
    exact (h1.trans h2).trans h3

/-- Folding stable insertions from a sorted accumulator concatenates the
`v`-keyed subsequences of accumulator and input, in their original order:
the stability of the whole sort. -/
theorem sortFold_filter (k : α → Int) (v : Int) :
    ∀ (l acc : List α), List.Pairwise (fun a b => k a ≤ k b) acc →
      (l.foldl (fun acc x => insertKey k x acc) acc).filter (fun a => decide (k a = v))
        = acc.filter (fun a => decide (k a = v)) ++ l.filter (fun a => decide (k a = v)) := by
  intro l
  induction l with
  | nil => intro acc _; simp
  | cons x xs ih =>
    intro acc h
    simp only [List.foldl_cons]
    rw [ih (insertKey k x acc) (insertKey_sorted k x acc h)]
    by_cases hx : k x = v
    · rw [insertKey_filter_eq k x v acc h hx]
      simp [List.filter_cons, hx]
    · rw [insertKey_filter_ne k x v acc hx]
      simp [List.filter_cons, hx]

/-- The model of Python `list.sort(key=k)` sorts ascending in `k`. -/
theorem pySortKey_sorted (k : α → Int) (l : List α) :
    List.Pairwise (fun a b => k a ≤ k b) (pySortKey k l) :=
  sortFold_sorted k l [] (by simp)

/-- The model of Python `list.sort(key=k)` permutes its input. -/
theorem pySortKey_perm (k : α → Int) (l : List α) :
    List.Perm (pySortKey k l) l := by
  simpa using sortFold_perm k l []

/-- The model of Python `list.sort(key=k)` keeps the same number of
elements. -/
theorem pySortKey_length (k : α → Int) (l : List α) :
    (pySortKey k l).length = l.length :=
  (pySortKey_perm k l).length_eq

/-- Stability of the model of Python `list.sort(key=k)`: elements of any
fixed key value keep their original relative order. -/
theorem pySortKey_filter (k : α → Int) (v : Int) (l : List α) :
    (pySortKey k l).filter (fun a => decide (k a = v))
      = l.filter (fun a => decide (k a = v)) := by
  simpa using sortFold_filter k v l [] (by simp)

/-- Python slice on a nonnegative bound is a take. -/
theorem pyTake_nonneg (n : Int) (hn : 0 ≤ n) (l : List α) :
    pyTake n l = l.take n.toNat := by
  simp [pyTake, hn]

/-- Python slice on a negative bound drops the last `|n|` elements. -/
theorem pyTake_neg (n : Int) (hn : n < 0) (l : List α) :
    pyTake n l = l.take (l.length - n.natAbs) := by
  simp [pyTake, not_le.mpr hn]

/-- Length of a nonnegative Python slice. -/
theorem length_pyTake_nonneg (n : Int) (hn : 0 ≤ n) (l : List α) :
    (pyTake n l).length = min n.toNat l.length := by
  simp [pyTake_nonneg n hn l]


/-- C1: for every input ID sequence, the concurrent fetcher inside
`get_stories` returns records aligned positionally with the input ID order:
for every completion schedule `s2` under which all detail jobs finish, in
whatever order, the record at position `i` is shaped from the detail payload
of the ID at position `i`. -/
theorem get_stories_aligned_with_input_order (env : Env) (s1 s2 : List Nat) (num : Int)
    (key : Key) (ids : List Int) (raw : Int → RawItem)
    (h1 : validSched s1 1) (hl : env.listing key = some { json := Except.ok ids })
    (h2 : validSched s2 (pyTake num ids).length)
    (hi : ∀ pid ∈ pyTake num ids, env.item pid = some { json := Except.ok (raw pid) }) :
    ∃ posts, get_stories env s1 s2 num key = Except.ok posts ∧
      posts.length = (pyTake num ids).length ∧
      ∀ i : Nat, posts[i]? = ((pyTake num ids)[i]?).map (fun pid => shapePost (raw pid)) := by
  refine ⟨_, get_stories_spec env s1 s2 num key ids raw h1 hl h2 hi, ?_, ?_⟩
  · simp
  · intro i
    simp [List.getElem?_map]

/-- Witness for C1, with the detail jobs completing in the order 2, 0, 1
while the records stay aligned with the ids 11, 22, 33. -/
theorem get_stories_aligned_with_input_order_witness :
    ∃ posts, get_stories testEnv [0] [2, 0, 1] 3 Key.topstories = Except.ok posts ∧
      posts.length = (pyTake 3 ([11, 22, 33] : List Int)).length ∧
      ∀ i : Nat, posts[i]?
        = ((pyTake 3 ([11, 22, 33] : List Int))[i]?).map (fun pid => shapePost (testRaw pid)) :=
  get_stories_aligned_with_input_order testEnv [0] [2, 0, 1] 3 Key.topstories [11, 22, 33]
    testRaw (by decide) (by decide) (by decide) (by decide)

/-- C2: every record returned by `get_stories` is the shape of some payload,
and its `comments_url` is the fixed prefix followed by the rendering of that
payload's own `id` field; the shaper derives `comments_url` from the
payload's `id` alone, and a missing `id` renders as the text `None` (the
interpolation of the null value) instead of failing. -/
theorem comments_url_from_item_own_id (env : Env) (s1 s2 : List Nat) (num : Int) (key : Key)
    (posts : List Post) (h : get_stories env s1 s2 num key = Except.ok posts) :
    (∀ post ∈ posts, ∃ p : RawItem, post = shapePost p ∧
        post.comments_url = "https://news.ycombinator.com/item?id=" ++ pyStr p.id) ∧
    (∀ p : RawItem, (shapePost p).comments_url
        = "https://news.ycombinator.com/item?id=" ++ pyStr p.id) ∧
    pyStr none = "None" := by
  refine ⟨?_, fun p => rfl, rfl⟩
  unfold get_stories at h
  split at h
  · simp at h
  · split at h
    · simp at h
    · injection h with h
      subst h
      intro post hpost
      rcases List.mem_map.mp hpost with ⟨p, _, rfl⟩
      exact ⟨p, rfl, rfl⟩

/-- Witness for C2 at a concrete successful call. -/
theorem comments_url_from_item_own_id_witness :
    (∀ post ∈ [shapePost (testRaw 11), shapePost (testRaw 22), shapePost (testRaw 33)],
      ∃ p : RawItem, post = shapePost p ∧
        post.comments_url = "https://news.ycombinator.com/item?id=" ++ pyStr p.id) ∧
    (∀ p : RawItem, (shapePost p).comments_url
        = "https://news.ycombinator.com/item?id=" ++ pyStr p.id) ∧
    pyStr none = "None" :=
  comments_url_from_item_own_id testEnv [0] [0, 1, 2] 3 Key.topstories
    [shapePost (testRaw 11), shapePost (testRaw 22), shapePost (testRaw 33)] (by decide)

/-- C3: the code reads the key `timestamp` from the payload, but the
upstream item carries the creation time under the key `time` (spec section
6), so on a real payload the shaped `timestamp` is `None` instead of the
`time` value: the shaper evaluated at such a payload shows the divergence. -/
theorem shaped_timestamp_ignores_time_field :
    bugItem.time = some 1700000000 ∧ (shapePost bugItem).timestamp = none ∧
      (shapePost bugItem).timestamp ≠ bugItem.time ∧
      ∀ p : RawItem, (shapePost p).timestamp = p.timestamp :=
  ⟨rfl, rfl, by decide, fun _ => rfl⟩

/-- C4: for nonnegative `num`, a fully successful call returns exactly
`min num (number of listed ids)` records; `get_top_stories` and
`get_new_stories` are the same call at the two fixed keys. -/
theorem get_top_new_stories_length_min (env : Env) (s1 s2 : List Nat) (num : Int)
    (key : Key) (ids : List Int) (raw : Int → RawItem)
    (hnum : 0 ≤ num)
    (h1 : validSched s1 1) (hl : env.listing key = some { json := Except.ok ids })
    (h2 : validSched s2 (pyTake num ids).length)
    (hi : ∀ pid ∈ pyTake num ids, env.item pid = some { json := Except.ok (raw pid) }) :
    (∃ posts, get_stories env s1 s2 num key = Except.ok posts ∧
        posts.length = min num.toNat ids.length) ∧
    get_top_stories env s1 s2 num = get_stories env s1 s2 num Key.topstories ∧
    get_new_stories env s1 s2 num = get_stories env s1 s2 num Key.newstories := by
  refine ⟨⟨_, get_stories_spec env s1 s2 num key ids raw h1 hl h2 hi, ?_⟩, rfl, rfl⟩
  simp [length_pyTake_nonneg num hnum]

/-- Witness for C4: requesting 10 stories from a 3-id listing returns 3. -/
theorem get_top_new_stories_length_min_witness :
    (∃ posts, get_stories testEnv [0] [0, 1, 2] 10 Key.newstories = Except.ok posts ∧
        posts.length = min (10 : Int).toNat ([11, 22, 33] : List Int).length) ∧
    get_top_stories testEnv [0] [0, 1, 2] 10
      = get_stories testEnv [0] [0, 1, 2] 10 Key.topstories ∧
    get_new_stories testEnv [0] [0, 1, 2] 10
      = get_stories testEnv [0] [0, 1, 2] 10 Key.newstories :=
  get_top_new_stories_length_min testEnv [0] [0, 1, 2] 10 Key.newstories [11, 22, 33] testRaw
    (by decide) (by decide) (by decide) (by decide) (by decide)

/-- C5: a failed or undecodable listing response makes the whole call fail
with that single error, and one failed detail request among the sliced ids
makes the whole call fail with a single error: no partial record list is
ever returned. -/
theorem single_failure_fails_whole_call (env : Env) (s1 s2 : List Nat) (num : Int) (key : Key)
    (h1 : validSched s1 1) :
    (∀ e, respJson (env.listing key) = Except.error e →
      get_stories env s1 s2 num key = Except.error e) ∧
    (∀ ids, respJson (env.listing key) = Except.ok ids →
      validSched s2 (pyTake num ids).length →
      (∃ pid ∈ pyTake num ids, ∃ e, respJson (env.item pid) = Except.error e) →
      ∃ e, get_stories env s1 s2 num key = Except.error e) := by
  have hresp : grequestsMap env.listing [key] s1 = [env.listing key] := by
    simpa using grequestsMap_eq_map env.listing [key] s1 (by simpa using h1)
  have hjoin : (((grequestsMap env.listing [key] s1)[0]?).join) = env.listing key := by
    rw [hresp]
    rfl
  constructor
  · intro e he
    unfold get_stories
    rw [hjoin, he]
  · intro ids hids h2 hex
    unfold get_stories
    rw [hjoin, hids]
    dsimp only
    rw [grequestsMap_eq_map env.item (pyTake num ids) s2 h2, exceptMapM_map]
    rcases exceptMapM_error (fun pid => respJson (env.item pid)) (pyTake num ids) hex
      with ⟨e2, he2⟩
    rw [he2]
    exact ⟨e2, rfl⟩

/-- Witness for C5: with the detail request of id 2 failing at the
transport level, the whole call errors. -/
theorem single_failure_fails_whole_call_witness :
    ∃ e, get_stories failEnv [0] [0, 1] 2 Key.topstories = Except.error e :=
  (single_failure_fails_whole_call failEnv [0] [0, 1] 2 Key.topstories (by decide)).2
    [1, 2] (by decide) (by decide) ⟨2, by decide, "AttributeError", by decide⟩

/-- C6: the record shaper is a total function that copies each of the five
optional payload fields verbatim, so a payload missing any of them yields a
record holding `none` there instead of an error; in particular the shape of
the all-missing payload is fully defined. -/
theorem shaper_missing_fields_to_none :
    (∀ p : RawItem, (shapePost p).title = p.title ∧ (shapePost p).url = p.url ∧
      (shapePost p).by_ = p.by_ ∧ (shapePost p).score = p.score ∧
      (shapePost p).timestamp = p.timestamp) ∧
    shapePost { id := none, title := none, url := none, by_ := none, score := none,
                time := none, timestamp := none }
      = { title := none, url := none,
          comments_url := "https://news.ycombinator.com/item?id=None",
          by_ := none, score := none, timestamp := none } :=
  ⟨fun _ => ⟨rfl, rfl, rfl, rfl, rfl⟩, by decide⟩

/-- C7: the sort inside `search_new_stories_by_title` orders the fetched
candidate pool by descending token-set similarity between the query and each
candidate's title, and candidates of equal score keep their relative order
from the pool: for every inner similarity `f`, the sorted sequence is
pairwise descending in score, a permutation of the pool, and filtering any
fixed score value yields the same subsequence as in the pool. -/
theorem search_sort_descending_stable (env : Env) (s1 s2 : List Nat)
    (f : String → String → Nat) (query : String) (num : Int) (pool : List Post)
    (h : get_new_stories env s1 s2 100 = Except.ok pool) :
    ∃ sorted, search_new_stories_by_title env s1 s2 f query num
        = Except.ok (pyTake num sorted) ∧
      List.Pairwise
        (fun a b => tokenSetScore f query b.title ≤ tokenSetScore f query a.title) sorted ∧
      List.Perm sorted pool ∧
      ∀ v : Nat, sorted.filter (fun x => decide (tokenSetScore f query x.title = v))
        = pool.filter (fun x => decide (tokenSetScore f query x.title = v)) := by
  refine ⟨pySortKey (fun x => -(tokenSetScore f query x.title : Int)) pool, ?_, ?_, ?_, ?_⟩
  · unfold search_new_stories_by_title
    rw [h]
  · have hs := pySortKey_sorted (fun x => -(tokenSetScore f query x.title : Int)) pool
    refine hs.imp ?_
    intro a b hab
    exact_mod_cast neg_le_neg_iff.mp hab
  · exact pySortKey_perm _ pool
  · intro v
    have hcong : ∀ (l : List Post),
        l.filter (fun x => decide (-(tokenSetScore f query x.title : Int) = -(v : Int)))
          = l.filter (fun x => decide (tokenSetScore f query x.title = v)) := by
      intro l
      apply List.filter_congr
      intro x _
      refine decide_eq_decide.mpr ?_
      constructor
      · intro hx
        exact_mod_cast neg_inj.mp hx
      · intro hx
        rw [hx]
    have hfilters := pySortKey_filter (fun x => -(tokenSetScore f query x.title : Int))
      (-(v : Int)) pool
    rw [hcong (pySortKey (fun x => -(tokenSetScore f query x.title : Int)) pool),
        hcong pool] at hfilters
    exact hfilters

/-- Witness for C7 at a concrete pool and a concrete inner similarity. -/
theorem search_sort_descending_stable_witness :
    ∃ sorted, search_new_stories_by_title testEnv [0] [0, 1, 2]
          (fun a b => a.length + b.length) "T" 2
        = Except.ok (pyTake 2 sorted) ∧
      List.Pairwise
        (fun a b => tokenSetScore (fun a b => a.length + b.length) "T" b.title
          ≤ tokenSetScore (fun a b => a.length + b.length) "T" a.title) sorted ∧
      List.Perm sorted [shapePost (testRaw 11), shapePost (testRaw 22), shapePost (testRaw 33)] ∧
      ∀ v : Nat, sorted.filter
          (fun x => decide (tokenSetScore (fun a b => a.length + b.length) "T" x.title = v))
        = [shapePost (testRaw 11), shapePost (testRaw 22), shapePost (testRaw 33)].filter
          (fun x => decide (tokenSetScore (fun a b => a.length + b.length) "T" x.title = v)) :=
  search_sort_descending_stable testEnv [0] [0, 1, 2] (fun a b => a.length + b.length) "T" 2
    [shapePost (testRaw 11), shapePost (testRaw 22), shapePost (testRaw 33)] (by decide)

/-- C8: `search_new_stories_by_title` builds its candidate pool from the
first 100 listed ids independently of `num`; with everything succeeding it
returns the slice `[:num]` of the score-sorted pool, hence never more than
`num` records, and all of them when `num` reaches the pool size; the pool
has exactly `min 100 (number of listed ids)` entries, so exactly 100
whenever the listing offers at least 100. -/
theorem search_pool_and_truncation (env : Env) (s1 s2 : List Nat)
    (f : String → String → Nat) (query : String) (num : Int)
    (ids : List Int) (raw : Int → RawItem)
    (hnum : 0 ≤ num)
    (h1 : validSched s1 1)
    (hl : env.listing Key.newstories = some { json := Except.ok ids })
    (h2 : validSched s2 (pyTake 100 ids).length)
    (hi : ∀ pid ∈ pyTake 100 ids, env.item pid = some { json := Except.ok (raw pid) }) :
    ∃ res, search_new_stories_by_title env s1 s2 f query num = Except.ok res ∧
      res = pyTake num (pySortKey (fun x => -(tokenSetScore f query x.title : Int))
        ((pyTake 100 ids).map (fun pid => shapePost (raw pid)))) ∧
      (pyTake 100 ids).length = min 100 ids.length ∧
      res.length ≤ num.toNat ∧
      (min 100 ids.length ≤ num.toNat → res.length = min 100 ids.length) := by
  have hpool : get_new_stories env s1 s2 100
      = Except.ok ((pyTake 100 ids).map (fun pid => shapePost (raw pid))) :=
    get_stories_spec env s1 s2 100 Key.newstories ids raw h1 hl h2 hi
  have hplen : (pyTake 100 ids).length = min 100 ids.length := by
    simpa using length_pyTake_nonneg 100 (by decide) ids
  refine ⟨_, ?_, rfl, hplen, ?_, ?_⟩
  · unfold search_new_stories_by_title
    rw [hpool]
  · rw [length_pyTake_nonneg num hnum]
    exact min_le_left _ _
  · intro hge
    rw [length_pyTake_nonneg num hnum, pySortKey_length, List.length_map, hplen]
    exact min_eq_right hge

/-- Witness for C8 at a 3-id listing with num 2. -/
theorem search_pool_and_truncation_witness :
    ∃ res, search_new_stories_by_title testEnv [0] [0, 1, 2]
          (fun a b => a.length + b.length) "T" 2 = Except.ok res ∧
      res = pyTake 2 (pySortKey
        (fun x => -(tokenSetScore (fun a b => a.length + b.length) "T" x.title : Int))
        ((pyTake 100 ([11, 22, 33] : List Int)).map (fun pid => shapePost (testRaw pid)))) ∧
      (pyTake 100 ([11, 22, 33] : List Int)).length = min 100 ([11, 22, 33] : List Int).length ∧
      res.length ≤ (2 : Int).toNat ∧
      (min 100 ([11, 22, 33] : List Int).length ≤ (2 : Int).toNat →
        res.length = min 100 ([11, 22, 33] : List Int).length) :=
  search_pool_and_truncation testEnv [0] [0, 1, 2] (fun a b => a.length + b.length) "T" 2
    [11, 22, 33] testRaw (by decide) (by decide) (by decide) (by decide) (by decide)

/-- C9: a candidate with a null title is scored exactly like one with the
empty-string title (both score 0, as in the thefuzz sources), the score
function is total, and the sort over any candidate set containing null
titles completes with all candidates present. -/
theorem null_title_scored_as_empty (f : String → String → Nat) (query : String)
    (posts : List Post) :
    tokenSetScore f query none = 0 ∧
    tokenSetScore f query (some "") = 0 ∧
    tokenSetScore f query none = tokenSetScore f query (some "") ∧
    List.Perm (pySortKey (fun x => -(tokenSetScore f query x.title : Int)) posts) posts ∧
    (pySortKey (fun x => -(tokenSetScore f query x.title : Int)) posts).length
      = posts.length := by
  have hemp : splitTokens (fullProcess "") = [] := rfl
  have h0 : tokenSetScore f query (some "") = 0 := by
    simp [tokenSetScore, hemp]
  exact ⟨rfl, h0, h0.symm, pySortKey_perm _ _, pySortKey_length _ _⟩

/-- C10: for negative `num` the call raises nothing: the Python slice
`data[:num]` keeps all but the last `|num|` ids, so with every request
succeeding the call returns exactly those shaped records, the empty list
when `|num|` reaches the listing length. -/
theorem get_stories_negative_num_slice (env : Env) (s1 s2 : List Nat) (num : Int) (key : Key)
    (ids : List Int) (raw : Int → RawItem)
    (hneg : num < 0)
    (h1 : validSched s1 1) (hl : env.listing key = some { json := Except.ok ids })
    (h2 : validSched s2 (pyTake num ids).length)
    (hi : ∀ pid ∈ pyTake num ids, env.item pid = some { json := Except.ok (raw pid) }) :
    get_stories env s1 s2 num key
      = Except.ok ((ids.take (ids.length - num.natAbs)).map
          (fun pid => shapePost (raw pid))) ∧
    ∃ posts, get_stories env s1 s2 num key = Except.ok posts ∧
      posts.length = ids.length - num.natAbs := by
  have hmain := get_stories_spec env s1 s2 num key ids raw h1 hl h2 hi
  rw [pyTake_neg num hneg] at hmain
  refine ⟨hmain, _, hmain, ?_⟩
  simp [List.length_take]

/-- Witness for C10: `num = -1` on a 3-id listing returns the first two
records without error. -/
theorem get_stories_negative_num_slice_witness :
    get_stories testEnv [0] [0, 1] (-1) Key.newstories
      = Except.ok ((([11, 22, 33] : List Int).take
          (([11, 22, 33] : List Int).length - (-1 : Int).natAbs)).map
          (fun pid => shapePost (testRaw pid))) ∧
    ∃ posts, get_stories testEnv [0] [0, 1] (-1) Key.newstories = Except.ok posts ∧
      posts.length = ([11, 22, 33] : List Int).length - (-1 : Int).natAbs :=
  get_stories_negative_num_slice testEnv [0] [0, 1] (-1) Key.newstories [11, 22, 33] testRaw
    (by decide) (by decide) (by decide) (by decide) (by decide)
